import Mathlib

/-!
Verification of the task-list controller in `src/react-todo-app/src/App.tsx`.

The component state (`todos`, `filter`, `editingId`, `editText`) and the
operations `addTodo`, `deleteTodo`, `toggleTodo`, `startEditing`, `saveEdit`,
`cancelEdit`, `filteredTodos` are embedded as pure Lean functions.  The
persisted `localStorage` slot is modelled at the JSON-tree level (`JValue`):
the string layer of `JSON.parse`/`JSON.stringify` belongs to the host and is
faithful, so a snapshot is a JSON tree, and `JSON.parse` of a stored string is
either a parse error or a tree.  `Date` values are modelled by their
millisecond timestamp (a `Nat`, as produced by `Date.now()`); the host's
lossless ISO-8601 encode/decode pair used by `JSON.stringify`/`new Date(s)` is
modelled by a lossless decimal encoding of the timestamp.
-/

namespace TodoApp

/-- Model of JavaScript `String.prototype.trim`: drop whitespace characters
from both ends of the string (`Char.isWhitespace` stands in for the host's
whitespace class). -/
def trimChars (l : List Char) : List Char :=
  (((l.dropWhile Char.isWhitespace).reverse.dropWhile Char.isWhitespace)).reverse

/-- JavaScript `text.trim()` on Lean strings. -/
def jsTrim (s : String) : String :=
  String.mk (trimChars s.data)

/-- The `Todo` interface of `App.tsx`: `createdAt` is a `Date`, modelled by
its millisecond timestamp. -/
structure Todo where
  id : String
  text : String
  completed : Bool
  createdAt : Nat
deriving DecidableEq

/-- The filter state: `'all' | 'active' | 'completed'`. -/
inductive Filter where
  | all
  | active
  | completed
deriving DecidableEq

/-- The component state that the claims are about: the task collection, the
current filter, and the edit session (`editingId`, `editText`).  The `newTodo`
input buffer only feeds `addTodo` and is cleared by it; it is passed to
`addTodo` as an argument instead of being stored here. -/
structure AppState where
  todos : List Todo
  filter : Filter
  editingId : Option String
  editText : String

/-- `addTodo` from `App.tsx`: no-op when the trimmed input is empty, otherwise
prepend a task with `id = Date.now().toString()`, the trimmed text,
`completed = false` and `createdAt = new Date()` (same clock reading `now`). -/
def addTodo (now : Nat) (newTodo : String) (todos : List Todo) : List Todo :=
  if jsTrim newTodo = "" then todos
  else { id := toString now, text := jsTrim newTodo,
         completed := false, createdAt := now } :: todos

/-- `deleteTodo` from `App.tsx`: keep the tasks whose id differs. -/
def deleteTodo (i : String) (todos : List Todo) : List Todo :=
  todos.filter fun todo => todo.id != i

/-- `toggleTodo` from `App.tsx`: flip `completed` on the matching task. -/
def toggleTodo (i : String) (todos : List Todo) : List Todo :=
  todos.map fun todo =>
    if todo.id = i then { todo with completed := !todo.completed } else todo

/-- `startEditing` from `App.tsx`: open a session on the given task. -/
def startEditing (todo : Todo) (s : AppState) : AppState :=
  { s with editingId := some todo.id, editText := todo.text }

/-- `saveEdit` from `App.tsx`: early return when the trimmed draft is empty
(the session stays open); otherwise rewrite the target task's text with the
trimmed draft and close the session. -/
def saveEdit (s : AppState) : AppState :=
  if jsTrim s.editText = "" then s
  else
    { s with
      todos := s.todos.map fun todo =>
        if s.editingId = some todo.id then { todo with text := jsTrim s.editText }
        else todo,
      editingId := none,
      editText := "" }

/-- `cancelEdit` from `App.tsx`. -/
def cancelEdit (s : AppState) : AppState :=
  { s with editingId := none, editText := "" }

/-- `filteredTodos` from `App.tsx`. -/
def filteredTodos (filter : Filter) (todos : List Todo) : List Todo :=
  todos.filter fun todo =>
    match filter with
    | .active => !todo.completed
    | .completed => todo.completed
    | .all => true

/-! JSON model: trees produced or consumed by the host's
`JSON.stringify`/`JSON.parse`. -/

/-- A JSON value.  Object fields are kept in order; the serializer below never
produces duplicate keys. -/
inductive JValue where
  | null
  | bool (b : Bool)
  | num (n : Int)
  | str (s : String)
  | arr (elems : List JValue)
  | obj (fields : List (String × JValue))

/-- Field lookup in a JSON object literal (first occurrence of the key). -/
def jLookup (fields : List (String × JValue)) (k : String) : Option JValue :=
  (fields.find? fun p => p.1 == k).map fun p => p.2

/-- JavaScript property access `v.k` on a parsed JSON value: it throws a
`TypeError` on `null`, yields the field on an object, and `undefined`
(here `none`) on any other value. -/
def jGet (v : JValue) (k : String) : Except Unit (Option JValue) :=
  match v with
  | .null => .error ()
  | .obj fields => .ok (jLookup fields k)
  | _ => .ok none

/-- The named fields contributed by the spread `{...todo}`: only an object
contributes named keys (spreading a primitive or an array contributes none of
the four names read by the app). -/
def spreadGet (v : JValue) (k : String) : Option JValue :=
  match v with
  | .obj fields => jLookup fields k
  | _ => none

/-! Date model.  The app stores `createdAt` through `JSON.stringify` (which
calls `Date.prototype.toJSON`, a lossless millisecond-precision ISO-8601
string) and revives it with `new Date(string)`.  The exact character shape of
that encoding is immaterial to the program; it is modelled by the decimal
string of the millisecond timestamp, which is likewise lossless. -/

/-- One decimal digit as a character (48 is the code point of the zero
digit). -/
def digitChar (d : Nat) : Char :=
  Char.ofNat (48 + d)

/-- Decode one decimal digit character back to its value. -/
def charDigit (c : Char) : Option Nat :=
  if 48 ≤ c.toNat ∧ c.toNat ≤ 57 then some (c.toNat - 48) else none

/-- Decode a list of digit characters, failing on any non-digit. -/
def charsToDigits : List Char → Option (List Nat)
  | [] => some []
  | c :: cs =>
    match charDigit c, charsToDigits cs with
    | some d, some ds => some (d :: ds)
    | _, _ => none

/-- Base-10 digits of `n`, least significant first, with explicit fuel so
that the recursion is structural. -/
def digitsFuel : Nat → Nat → List Nat
  | 0, _ => []
  | fuel + 1, n => if n = 0 then [] else n % 10 :: digitsFuel fuel (n / 10)

/-- Base-10 digits of `n`, least significant first (`n` itself is enough
fuel, since the value shrinks by a factor of ten each step). -/
def natDigits (n : Nat) : List Nat :=
  digitsFuel n n

/-- Rebuild a number from its digits, least significant first. -/
def fromDigits : List Nat → Nat
  | [] => 0
  | d :: ds => d + 10 * fromDigits ds

/-- Model of `Date.prototype.toJSON`: the timestamp's serialized string form
(most significant digit first). -/
def dateToJson (ms : Nat) : String :=
  String.mk (((natDigits ms).map digitChar).reverse)

/-- Model of parsing a date string back to a timestamp; a string that is not
in the canonical stored form yields an invalid date (`none`). -/
def jsonToDate (s : String) : Option Nat :=
  match charsToDigits s.data with
  | some ds => some (fromDigits ds.reverse)
  | none => none

/-- Model of `new Date(x)` on the revived field value (`none` is JavaScript
`undefined`).  An invalid date is `none`.  `new Date(null)` is the epoch,
`new Date(bool)` is 0 or 1 ms; a negative number or a non-primitive argument
is modelled as invalid (the app never produces those). -/
def newDate : Option JValue → Option Nat
  | none => none
  | some .null => some 0
  | some (.bool b) => some (cond b 1 0)
  | some (.num n) => if n < 0 then none else some n.toNat
  | some (.str s) => jsonToDate s
  | some (.arr _) => none
  | some (.obj _) => none

/-- One element of the array produced by the load revival
`{...todo, createdAt: new Date(todo.createdAt)}`: the values found at the four
field names the app reads (`none` is JavaScript `undefined`; keys other than
these four are never read by the app and are not tracked). -/
structure RevivedRecord where
  id : Option JValue
  text : Option JValue
  completed : Option JValue
  createdAt : Option Nat

/-- Revival of one stored record: the property access `todo.createdAt` can
throw (on `null`); otherwise the spread copies the named fields and
`createdAt` is overridden by the revived date. -/
def reviveOne (todo : JValue) : Except Unit RevivedRecord :=
  match jGet todo "createdAt" with
  | .error e => .error e
  | .ok v =>
    .ok { id := spreadGet todo "id", text := spreadGet todo "text",
          completed := spreadGet todo "completed", createdAt := newDate v }

/-- Revival of the whole stored array, in order; the first throw aborts. -/
def reviveAll : List JValue → Except Unit (List RevivedRecord)
  | [] => .ok []
  | todo :: todos =>
    match reviveOne todo, reviveAll todos with
    | .ok r, .ok rs => .ok (r :: rs)
    | .error e, _ => .error e
    | _, .error e => .error e

/-- `parsed.map(...)` in the load effect: calling `.map` on a non-array parsed
value throws a `TypeError`; on an array it revives each element. -/
def jsMapRevive (parsed : JValue) : Except Unit (List RevivedRecord) :=
  match parsed with
  | .arr todos => reviveAll todos
  | _ => .error ()

/-- Outcome of the load effect: the resulting task collection and whether the
`catch` branch logged a failure. -/
structure LoadOutcome where
  records : List RevivedRecord
  loggedError : Bool

/-- The load effect of `App.tsx`, given the result of `JSON.parse` on the
stored string (`none`: no stored item, so the `if (saved)` guard skips the
body; `some (.error ())`: `JSON.parse` threw).  Any failure inside the `try`
is caught and logged, and `todos` keeps its initial empty value. -/
def loadResult : Option (Except Unit JValue) → LoadOutcome
  | none => { records := [], loggedError := false }
  | some (.error _) => { records := [], loggedError := true }
  | some (.ok parsed) =>
    match jsMapRevive parsed with
    | .error _ => { records := [], loggedError := true }
    | .ok rs => { records := rs, loggedError := false }

/-- Does the deserialization of a stored snapshot fail, in the sense of the
code: either `JSON.parse` threw, or the revival `parsed.map(...)` threw. -/
def deserializationFails : Except Unit JValue → Bool
  | .error _ => true
  | .ok parsed =>
    match jsMapRevive parsed with
    | .error _ => true
    | .ok _ => false

/-! Serialization: `JSON.stringify(todos)` produces the array of records
`{id, text, completed, createdAt}` with `createdAt` rendered by
`Date.prototype.toJSON`. -/

/-- The stored JSON record of one task. -/
def serializeTodo (t : Todo) : JValue :=
  .obj [("id", .str t.id), ("text", .str t.text),
        ("completed", .bool t.completed),
        ("createdAt", .str (dateToJson t.createdAt))]

/-- The stored JSON snapshot of the collection. -/
def serializeTodos (todos : List Todo) : JValue :=
  .arr (todos.map serializeTodo)

/-- The revived record of a well-formed stored task. -/
def recordOf (t : Todo) : RevivedRecord :=
  { id := some (.str t.id), text := some (.str t.text),
    completed := some (.bool t.completed), createdAt := some t.createdAt }

/-- Read a revived record back as a `Todo`, when each field has the shape a
serialized task gives it and the date is valid. -/
def todoOfRecord : RevivedRecord → Option Todo
  | { id := some (.str i), text := some (.str tx),
      completed := some (.bool c), createdAt := some ms } =>
    some { id := i, text := tx, completed := c, createdAt := ms }
  | _ => none

/-- Read a whole revived array back as tasks, failing if any record does not
have the serialized-task shape. -/
def decodeRecords : List RevivedRecord → Option (List Todo)
  | [] => some []
  | r :: rs =>
    match todoOfRecord r, decodeRecords rs with
    | some t, some ts => some (t :: ts)
    | _, _ => none

/-! The whole system: the component state together with the persisted slot.
Per the spec the slot is written exclusively by this controller, so a
snapshot present at load time is one that an earlier session persisted. -/

/-- The component state plus the `localStorage` slot (a JSON tree, or `none`
when no item is stored). -/
structure Sys where
  state : AppState
  slot : Option JValue

/-- The initial component state (`useState` initial values). -/
def initialState : AppState :=
  { todos := [], filter := .all, editingId := none, editText := "" }

/-- A fresh system: initial state, nothing persisted yet. -/
def sysInit : Sys :=
  { state := initialState, slot := none }

/-- An `addTodo` action: when the guard passes, the save effect persists the
new collection; a silent no-op performs no state change and no write. -/
def applyAdd (now : Nat) (text : String) (sys : Sys) : Sys :=
  if jsTrim text = "" then sys
  else
    let ts := addTodo now text sys.state.todos
    { state := { sys.state with todos := ts }, slot := some (serializeTodos ts) }

/-- A `deleteTodo` action; `setTodos` always runs, so the save effect writes. -/
def applyDelete (i : String) (sys : Sys) : Sys :=
  let ts := deleteTodo i sys.state.todos
  { state := { sys.state with todos := ts }, slot := some (serializeTodos ts) }

/-- A `toggleTodo` action; `setTodos` always runs, so the save effect writes. -/
def applyToggle (i : String) (sys : Sys) : Sys :=
  let ts := toggleTodo i sys.state.todos
  { state := { sys.state with todos := ts }, slot := some (serializeTodos ts) }

/-- A `startEditing` action (the UI offers it only for rendered tasks). -/
def applyStartEdit (todo : Todo) (sys : Sys) : Sys :=
  { state := startEditing todo sys.state, slot := sys.slot }

/-- Typing into the edit input: `setEditText`; no persistence. -/
def applyUpdateDraft (d : String) (sys : Sys) : Sys :=
  { state := { sys.state with editText := d }, slot := sys.slot }

/-- A `saveEdit` action: the early return leaves everything (slot included)
untouched; otherwise the save effect persists the rewritten collection. -/
def applySaveEdit (sys : Sys) : Sys :=
  if jsTrim sys.state.editText = "" then sys
  else
    { state := saveEdit sys.state,
      slot := some (serializeTodos (saveEdit sys.state).todos) }

/-- A `cancelEdit` action; `todos` is untouched, so no write. -/
def applyCancelEdit (sys : Sys) : Sys :=
  { state := cancelEdit sys.state, slot := sys.slot }

/-- A `setFilter` action; pure view state. -/
def applySetFilter (f : Filter) (sys : Sys) : Sys :=
  { state := { sys.state with filter := f }, slot := sys.slot }

/-- A session restart: a fresh mount loads `ts` from the slot, and the save
effects of the mount leave the slot holding the serialization of the loaded
collection. -/
def applyStartSession (ts : List Todo) (_sys : Sys) : Sys :=
  { state := { initialState with todos := ts }, slot := some (serializeTodos ts) }

/-- One controller action, as fired by the UI.  `startSession` models closing
the page and mounting a fresh component over the same persisted slot: the
stored string parses back to the stored tree, revival runs, and `ts` is the
decoded collection (every reachable slot holds a serialized collection, so
the decoding hypothesis is satisfiable exactly when the code's load is). -/
inductive Step : Sys → Sys → Prop
  | add (now : Nat) (text : String) (sys : Sys) : Step sys (applyAdd now text sys)
  | del (i : String) (sys : Sys) : Step sys (applyDelete i sys)
  | toggle (i : String) (sys : Sys) : Step sys (applyToggle i sys)
  | startEdit (todo : Todo) (sys : Sys) (h : todo ∈ sys.state.todos) :
      Step sys (applyStartEdit todo sys)
  | updateDraft (d : String) (sys : Sys) : Step sys (applyUpdateDraft d sys)
  | saveEditStep (sys : Sys) : Step sys (applySaveEdit sys)
  | cancelEditStep (sys : Sys) : Step sys (applyCancelEdit sys)
  | setFilterStep (f : Filter) (sys : Sys) : Step sys (applySetFilter f sys)
  | startSession (sys : Sys) (ts : List Todo)
      (h : decodeRecords (loadResult (sys.slot.map Except.ok)).records = some ts) :
      Step sys (applyStartSession ts sys)

/-- Reachability from the fresh system by controller actions. -/
def Reachable (sys : Sys) : Prop :=
  Relation.ReflTransGen Step sysInit sys

/-- The same actions, but each `add` is required to draw a clock reading whose
decimal string is not already an id in the collection (true in particular
whenever the millisecond clock strictly increases between adds). -/
inductive StepF : Sys → Sys → Prop
  | add (now : Nat) (text : String) (sys : Sys)
      (hfresh : toString now ∉ sys.state.todos.map Todo.id) :
      StepF sys (applyAdd now text sys)
  | del (i : String) (sys : Sys) : StepF sys (applyDelete i sys)
  | toggle (i : String) (sys : Sys) : StepF sys (applyToggle i sys)
  | startEdit (todo : Todo) (sys : Sys) (h : todo ∈ sys.state.todos) :
      StepF sys (applyStartEdit todo sys)
  | updateDraft (d : String) (sys : Sys) : StepF sys (applyUpdateDraft d sys)
  | saveEditStep (sys : Sys) : StepF sys (applySaveEdit sys)
  | cancelEditStep (sys : Sys) : StepF sys (applyCancelEdit sys)
  | setFilterStep (f : Filter) (sys : Sys) : StepF sys (applySetFilter f sys)
  | startSession (sys : Sys) (ts : List Todo)
      (h : decodeRecords (loadResult (sys.slot.map Except.ok)).records = some ts) :
      StepF sys (applyStartSession ts sys)

/-- Reachability when every add uses a fresh clock string. -/
def ReachableF (sys : Sys) : Prop :=
  Relation.ReflTransGen StepF sysInit sys

/-! Properties of the invariants the claims quantify over. -/

/-- Every task's text survives a further trim: texts committed by the
controller are non-empty even after trimming. -/
def TextsOK (ts : List Todo) : Prop :=
  ∀ t ∈ ts, jsTrim t.text ≠ ""

/-- The ids of the collection are pairwise distinct. -/
def IdsOK (ts : List Todo) : Prop :=
  (ts.map Todo.id).Nodup

/-- The persisted slot is empty or holds the serialization of a collection
satisfying `P`. -/
def GoodSlot (P : List Todo → Prop) (slot : Option JValue) : Prop :=
  slot = none ∨ ∃ ts, slot = some (serializeTodos ts) ∧ P ts

/-! Date encoding round trip. -/

theorem fromDigits_digitsFuel (fuel : Nat) :
    ∀ n : Nat, n ≤ fuel → fromDigits (digitsFuel fuel n) = n := by
  induction fuel with
  | zero =>
    intro n hn
    have h0 : n = 0 := Nat.le_zero.mp hn
    subst h0
    rfl
  | succ fuel ih =>
    intro n hn
    by_cases h0 : n = 0
    · subst h0
      simp [digitsFuel, fromDigits]
    · have hdiv : n / 10 ≤ fuel := by
        have hlt : n / 10 < n := Nat.div_lt_self (Nat.pos_of_ne_zero h0) (by omega)
        omega
      simp only [digitsFuel, h0, if_false, fromDigits, ih _ hdiv]
      omega

theorem fromDigits_natDigits (n : Nat) : fromDigits (natDigits n) = n :=
  fromDigits_digitsFuel n n le_rfl

theorem digitsFuel_lt (fuel : Nat) :
    ∀ n : Nat, ∀ d ∈ digitsFuel fuel n, d < 10 := by
  induction fuel with
  | zero =>
    intro n d hd
    simp [digitsFuel] at hd
  | succ fuel ih =>
    intro n d hd
    by_cases h0 : n = 0
    · simp [digitsFuel, h0] at hd
    · simp only [digitsFuel, h0, if_false, List.mem_cons] at hd
      rcases hd with rfl | hd
      · exact Nat.mod_lt _ (by omega)
      · exact ih _ d hd

theorem charDigit_digitChar {d : Nat} (h : d < 10) :
    charDigit (digitChar d) = some d := by
  interval_cases d <;> rfl

theorem charsToDigits_map {ds : List Nat} (h : ∀ d ∈ ds, d < 10) :
    charsToDigits (ds.map digitChar) = some ds := by
  induction ds with
  | nil => rfl
  | cons d ds ih =>
    have hd : d < 10 := h d (List.mem_cons_self d ds)
    have hds : ∀ x ∈ ds, x < 10 := fun x hx => h x (List.mem_cons_of_mem d hx)
    simp [charsToDigits, charDigit_digitChar hd, ih hds]

theorem jsonToDate_dateToJson (ms : Nat) : jsonToDate (dateToJson ms) = some ms := by
  have hdata : (dateToJson ms).data = ((natDigits ms).reverse).map digitChar := by
    show (((natDigits ms).map digitChar)).reverse = _
    rw [List.map_reverse]
  have hlt : ∀ d ∈ (natDigits ms).reverse, d < 10 := fun d hd =>
    digitsFuel_lt ms ms d (List.mem_reverse.mp hd)
  unfold jsonToDate
  rw [hdata, charsToDigits_map hlt]
  simp [List.reverse_reverse, fromDigits_natDigits]

/-! Trimming is idempotent. -/

theorem dropWhile_dropWhile (p : α → Bool) (l : List α) :
    (l.dropWhile p).dropWhile p = l.dropWhile p := by
  induction l with
  | nil => rfl
  | cons a t ih =>
    by_cases h : p a
    · simp [List.dropWhile_cons_of_pos h, ih]
    · simp [List.dropWhile_cons_of_neg h]

theorem dropWhile_eq_self_of_front {p : α → Bool} {A B : List α}
    (hA : A.dropWhile p = A) (hpre : B <+: A) : B.dropWhile p = B := by
  cases B with
  | nil => rfl
  | cons b bs =>
    obtain ⟨rest, hrest⟩ := hpre
    have hb : ¬ p b := by
      intro hp
      rw [← hrest, List.cons_append, List.dropWhile_cons_of_pos hp] at hA
      have hsub := (List.dropWhile_sublist (l := bs ++ rest) p).length_le
      rw [hA] at hsub
      simp only [List.length_cons] at hsub
      omega
    exact List.dropWhile_cons_of_neg hb

theorem trimChars_idem (l : List Char) : trimChars (trimChars l) = trimChars l := by
  have hA : (l.dropWhile Char.isWhitespace).dropWhile Char.isWhitespace
      = l.dropWhile Char.isWhitespace := dropWhile_dropWhile _ _
  have hpre :
      ((l.dropWhile Char.isWhitespace).reverse.dropWhile Char.isWhitespace).reverse
        <+: l.dropWhile Char.isWhitespace := by
    have h1 := List.dropWhile_suffix (l := (l.dropWhile Char.isWhitespace).reverse)
      Char.isWhitespace
    have h2 := List.reverse_prefix.mpr h1
    rwa [List.reverse_reverse] at h2
  unfold trimChars
  rw [dropWhile_eq_self_of_front hA hpre, List.reverse_reverse,
    dropWhile_dropWhile]

theorem jsTrim_idem (s : String) : jsTrim (jsTrim s) = jsTrim s := by
  unfold jsTrim
  rw [show (String.mk (trimChars s.data)).data = trimChars s.data from rfl,
    trimChars_idem]

theorem jsTrim_empty : jsTrim "" = "" := rfl

/-! Serialize / revive round trip. -/

theorem reviveOne_serializeTodo (t : Todo) :
    reviveOne (serializeTodo t) = .ok (recordOf t) := by
  show Except.ok
      { id := some (.str t.id), text := some (.str t.text),
        completed := some (.bool t.completed),
        createdAt := jsonToDate (dateToJson t.createdAt) }
    = Except.ok (recordOf t)
  rw [jsonToDate_dateToJson]
  rfl

theorem reviveAll_serialize (ts : List Todo) :
    reviveAll (ts.map serializeTodo) = .ok (ts.map recordOf) := by
  induction ts with
  | nil => rfl
  | cons t ts ih =>
    simp [reviveAll, reviveOne_serializeTodo, ih]

theorem todoOfRecord_recordOf (t : Todo) : todoOfRecord (recordOf t) = some t := rfl

theorem decodeRecords_map_recordOf (ts : List Todo) :
    decodeRecords (ts.map recordOf) = some ts := by
  induction ts with
  | nil => rfl
  | cons t ts ih =>
    simp [decodeRecords, todoOfRecord_recordOf, ih]

theorem loadResult_serialize (ts : List Todo) :
    loadResult (some (.ok (serializeTodos ts)))
      = { records := ts.map recordOf, loggedError := false } := by
  simp [loadResult, serializeTodos, jsMapRevive, reviveAll_serialize]

/-! Shape of each operation's effect on ids and texts. -/

theorem toggleTodo_map_id (i : String) (ts : List Todo) :
    (toggleTodo i ts).map Todo.id = ts.map Todo.id := by
  induction ts with
  | nil => rfl
  | cons t ts ih =>
    by_cases h : t.id = i <;> simp [toggleTodo, h] <;>
      simpa [toggleTodo] using ih

theorem saveEditMap_map_id (eid : Option String) (tx : String) (ts : List Todo) :
    (ts.map fun todo =>
        if eid = some todo.id then { todo with text := tx } else todo).map Todo.id
      = ts.map Todo.id := by
  rw [List.map_map]
  apply List.map_congr_left
  intro a _
  by_cases h : eid = some a.id <;> simp [h]

theorem textsOK_addTodo {ts : List Todo} (h : TextsOK ts) (now : Nat)
    (text : String) : TextsOK (addTodo now text ts) := by
  unfold addTodo
  split
  · exact h
  · rename_i hne
    intro t ht
    rcases List.mem_cons.mp ht with rfl | ht
    · show jsTrim (jsTrim text) ≠ ""
      rw [jsTrim_idem]
      exact hne
    · exact h t ht

theorem textsOK_deleteTodo {ts : List Todo} (h : TextsOK ts) (i : String) :
    TextsOK (deleteTodo i ts) := fun t ht =>
  h t (List.mem_of_mem_filter ht)

theorem textsOK_toggleTodo {ts : List Todo} (h : TextsOK ts) (i : String) :
    TextsOK (toggleTodo i ts) := by
  intro t ht
  obtain ⟨u, hu, rfl⟩ := List.mem_map.mp ht
  by_cases hid : u.id = i
  · simpa [hid] using h u hu
  · simpa [hid] using h u hu

theorem textsOK_saveEditMap {ts : List Todo} (h : TextsOK ts)
    (eid : Option String) {et : String} (het : jsTrim et ≠ "") :
    TextsOK (ts.map fun todo =>
      if eid = some todo.id then { todo with text := jsTrim et } else todo) := by
  intro t ht
  obtain ⟨u, hu, rfl⟩ := List.mem_map.mp ht
  by_cases hid : eid = some u.id
  · show jsTrim (if eid = some u.id then { u with text := jsTrim et } else u).text ≠ ""
    rw [if_pos hid]
    show jsTrim (jsTrim et) ≠ ""
    rw [jsTrim_idem]
    exact het
  · simpa [hid] using h u hu

theorem idsOK_addTodo {ts : List Todo} (h : IdsOK ts) (now : Nat) (text : String)
    (hfresh : toString now ∉ ts.map Todo.id) : IdsOK (addTodo now text ts) := by
  unfold addTodo
  split
  · exact h
  · exact List.Nodup.cons hfresh h

theorem idsOK_deleteTodo {ts : List Todo} (h : IdsOK ts) (i : String) :
    IdsOK (deleteTodo i ts) :=
  h.sublist ((List.filter_sublist ts).map Todo.id)

theorem idsOK_toggleTodo {ts : List Todo} (h : IdsOK ts) (i : String) :
    IdsOK (toggleTodo i ts) := by
  unfold IdsOK
  rw [toggleTodo_map_id]
  exact h

theorem idsOK_saveEditMap {ts : List Todo} (h : IdsOK ts) (eid : Option String)
    (tx : String) :
    IdsOK (ts.map fun todo =>
      if eid = some todo.id then { todo with text := tx } else todo) := by
  unfold IdsOK
  rw [saveEditMap_map_id]
  exact h

theorem textsOK_nil : TextsOK [] := fun t ht => absurd ht (List.not_mem_nil t)

theorem idsOK_nil : IdsOK [] := List.nodup_nil

/-- Loading from a reachable slot gives back exactly the collection whose
serialization the slot holds (or the empty collection if nothing is stored),
and that collection inherits the slot's property. -/
theorem decodeSlot_eq {P : List Todo → Prop} {slot : Option JValue}
    {ts : List Todo} (hs : GoodSlot P slot) (hemp : P [])
    (h : decodeRecords (loadResult (slot.map Except.ok)).records = some ts) :
    P ts := by
  rcases hs with rfl | ⟨ts0, rfl, hP⟩
  · have h0 : some ([] : List Todo) = some ts := h
    rw [← Option.some.inj h0]
    exact hemp
  · have h0 : ts0 = ts := by
      simpa [loadResult_serialize, decodeRecords_map_recordOf] using h
    rw [← h0]
    exact hP

/-! Invariant: committed texts are never empty or whitespace-only. -/

/-- The text invariant over the whole system: every task text in the state
survives trimming, and the persisted slot (if any) serializes such tasks. -/
def InvT (sys : Sys) : Prop :=
  TextsOK sys.state.todos ∧ GoodSlot TextsOK sys.slot

theorem invT_step {a b : Sys} (h : InvT a) (st : Step a b) : InvT b := by
  obtain ⟨ht, hs⟩ := h
  cases st with
  | add now text sys =>
    unfold applyAdd
    split
    · exact ⟨ht, hs⟩
    · exact ⟨textsOK_addTodo ht now text,
        Or.inr ⟨addTodo now text a.state.todos, rfl, textsOK_addTodo ht now text⟩⟩
  | del i sys =>
    exact ⟨textsOK_deleteTodo ht i,
      Or.inr ⟨deleteTodo i a.state.todos, rfl, textsOK_deleteTodo ht i⟩⟩
  | toggle i sys =>
    exact ⟨textsOK_toggleTodo ht i,
      Or.inr ⟨toggleTodo i a.state.todos, rfl, textsOK_toggleTodo ht i⟩⟩
  | startEdit todo sys hmem => exact ⟨ht, hs⟩
  | updateDraft d sys => exact ⟨ht, hs⟩
  | saveEditStep sys =>
    unfold applySaveEdit
    split
    · exact ⟨ht, hs⟩
    · rename_i hne
      have hsave : (saveEdit a.state).todos
          = a.state.todos.map fun todo =>
              if a.state.editingId = some todo.id then
                { todo with text := jsTrim a.state.editText }
              else todo := by
        unfold saveEdit
        rw [if_neg hne]
      refine ⟨?_, Or.inr ⟨(saveEdit a.state).todos, rfl, ?_⟩⟩ <;>
        rw [hsave] <;> exact textsOK_saveEditMap ht _ hne
  | cancelEditStep sys => exact ⟨ht, hs⟩
  | setFilterStep f sys => exact ⟨ht, hs⟩
  | startSession sys ts hdec =>
    have hts : TextsOK ts := decodeSlot_eq hs textsOK_nil hdec
    exact ⟨hts, Or.inr ⟨ts, rfl, hts⟩⟩

theorem invT_sysInit : InvT sysInit := ⟨textsOK_nil, Or.inl rfl⟩

theorem invT_reachable {sys : Sys} (h : Reachable sys) : InvT sys := by
  unfold Reachable at h
  induction h with
  | refl => exact invT_sysInit
  | tail _ hstep ih => exact invT_step ih hstep

/-! Invariant: ids stay pairwise distinct, as long as every add uses a fresh
clock string. -/

/-- The id-uniqueness invariant over the whole system. -/
def InvI (sys : Sys) : Prop :=
  IdsOK sys.state.todos ∧ GoodSlot IdsOK sys.slot

theorem invI_step {a b : Sys} (h : InvI a) (st : StepF a b) : InvI b := by
  obtain ⟨hi, hs⟩ := h
  cases st with
  | add now text sys hfresh =>
    unfold applyAdd
    split
    · exact ⟨hi, hs⟩
    · exact ⟨idsOK_addTodo hi now text hfresh,
        Or.inr ⟨addTodo now text a.state.todos, rfl, idsOK_addTodo hi now text hfresh⟩⟩
  | del i sys =>
    exact ⟨idsOK_deleteTodo hi i,
      Or.inr ⟨deleteTodo i a.state.todos, rfl, idsOK_deleteTodo hi i⟩⟩
  | toggle i sys =>
    exact ⟨idsOK_toggleTodo hi i,
      Or.inr ⟨toggleTodo i a.state.todos, rfl, idsOK_toggleTodo hi i⟩⟩
  | startEdit todo sys hmem => exact ⟨hi, hs⟩
  | updateDraft d sys => exact ⟨hi, hs⟩
  | saveEditStep sys =>
    unfold applySaveEdit
    split
    · exact ⟨hi, hs⟩
    · rename_i hne
      have hsave : (saveEdit a.state).todos
          = a.state.todos.map fun todo =>
              if a.state.editingId = some todo.id then
                { todo with text := jsTrim a.state.editText }
              else todo := by
        unfold saveEdit
        rw [if_neg hne]
      refine ⟨?_, Or.inr ⟨(saveEdit a.state).todos, rfl, ?_⟩⟩ <;>
        rw [hsave] <;> exact idsOK_saveEditMap hi _ _
  | cancelEditStep sys => exact ⟨hi, hs⟩
  | setFilterStep f sys => exact ⟨hi, hs⟩
  | startSession sys ts hdec =>
    have hts : IdsOK ts := decodeSlot_eq hs idsOK_nil hdec
    exact ⟨hts, Or.inr ⟨ts, rfl, hts⟩⟩

theorem invI_sysInit : InvI sysInit := ⟨idsOK_nil, Or.inl rfl⟩

theorem invI_reachableF {sys : Sys} (h : ReachableF sys) : InvI sys := by
  unfold ReachableF at h
  induction h with
  | refl => exact invI_sysInit
  | tail _ hstep ih => exact invI_step ih hstep

/-! The claims. -/

/-- C1 (counterexample): the snapshot `[{}]` — a stored array holding one
record of entirely the wrong shape — is not treated as a deserialization
failure by `load`: nothing is caught or logged, and the resulting collection
is not empty; it holds one record whose four fields are all `undefined`
(with an invalid date). -/
theorem c1_counterexample :
    deserializationFails (.ok (JValue.arr [JValue.obj []])) = false ∧
    loadResult (some (.ok (JValue.arr [JValue.obj []])))
      = { records := [{ id := none, text := none, completed := none,
                        createdAt := none }],
          loggedError := false } :=
  ⟨by decide, rfl⟩

/-- C1 (amended): for every persisted snapshot whose deserialization fails —
`JSON.parse` throwing, a parsed top-level value that is not an array, or a
record on which the revival's property access throws — `load` catches the
failure, logs it, and leaves the controller with the empty collection.  (An
array whose records merely have the wrong shape does not fail and is loaded
as-is.) -/
theorem c1_load_failure_caught (po : Except Unit JValue)
    (h : deserializationFails po = true) :
    loadResult (some po) = { records := [], loggedError := true } := by
  cases po with
  | error e => rfl
  | ok v =>
    have hload : loadResult (some (.ok v))
        = match jsMapRevive v with
          | .error _ => { records := [], loggedError := true }
          | .ok rs => { records := rs, loggedError := false } := rfl
    have hfail : deserializationFails (.ok v)
        = match jsMapRevive v with
          | .error _ => true
          | .ok _ => false := rfl
    rw [hfail] at h
    rw [hload]
    cases hrev : jsMapRevive v with
    | error e => rfl
    | ok rs =>
      rw [hrev] at h
      exact Bool.noConfusion h

/-- C1 (witness): the snapshot whose parsed value is the string "oops" (not
an array) fails deserialization, and loading it logs and yields no tasks. -/
theorem c1_load_failure_caught_witness :
    deserializationFails (.ok (JValue.str "oops")) = true ∧
    loadResult (some (.ok (JValue.str "oops")))
      = { records := [], loggedError := true } :=
  ⟨by decide, c1_load_failure_caught _ (by decide)⟩

/-- The duplicate-id state of the C2 counterexample: two adds in the same
millisecond (`Date.now() = 1` both times). -/
def dupSys : Sys :=
  applyAdd 1 "b" (applyAdd 1 "a" sysInit)

/-- C2 (counterexample): from the empty collection, `add "a"` and `add "b"`
fired in the same millisecond reach a state whose two tasks both carry the
id "1" — `id` is not unique in every reachable state. -/
theorem c2_counterexample :
    Relation.ReflTransGen Step sysInit dupSys ∧
    dupSys.state.todos.map Todo.id = ["1", "1"] ∧
    ¬ (dupSys.state.todos.map Todo.id).Nodup :=
  ⟨Relation.ReflTransGen.head (Step.add 1 "a" sysInit)
      (Relation.ReflTransGen.head (Step.add 1 "b" (applyAdd 1 "a" sysInit))
        Relation.ReflTransGen.refl),
    by decide, by decide⟩

/-- C2 (amended): in every state reachable from the empty collection by the
controller's operations (load included), the `id` field is unique across all
tasks, provided each add draws a clock reading whose decimal string is not
already an id in the collection — in particular whenever the millisecond
clock strictly increases between adds. -/
theorem c2_unique_ids {sys : Sys} (h : ReachableF sys) :
    (sys.state.todos.map Todo.id).Nodup :=
  (invI_reachableF h).1

/-- C2 (witness): one fresh add from the empty system keeps ids unique. -/
theorem c2_unique_ids_witness :
    ReachableF (applyAdd 1 "a" sysInit) ∧
    ((applyAdd 1 "a" sysInit).state.todos.map Todo.id).Nodup := by
  have hreach : ReachableF (applyAdd 1 "a" sysInit) :=
    Relation.ReflTransGen.head (StepF.add 1 "a" sysInit (by decide))
      Relation.ReflTransGen.refl
  exact ⟨hreach, c2_unique_ids hreach⟩

/-- C3 (counterexample): with the clock at 1 ms and an existing task whose id
is "1", adding non-blank text "b" prepends the new task, but its id "1" is
not fresh — both tasks now carry the id of the previously present task. -/
theorem c3_counterexample :
    jsTrim "b" ≠ "" ∧
    (addTodo 1 "b" [⟨"1", "a", false, 1⟩]).map Todo.id = ["1", "1"] :=
  ⟨by decide, by decide⟩

/-- C3 (amended): for every text whose trimmed form is non-empty, `add`
prepends exactly one new task — `completed = false`, text the trimmed input,
id the decimal string of the creation clock reading — and all previously
present tasks are unchanged in their relative order.  The new id is fresh
whenever that clock string is not already an id in the collection. -/
theorem c3_add_spec (now : Nat) (text : String) (ts : List Todo)
    (h : jsTrim text ≠ "") :
    addTodo now text ts
      = { id := toString now, text := jsTrim text, completed := false,
          createdAt := now } :: ts ∧
    (toString now ∉ ts.map Todo.id →
      ∀ u ∈ ts,
        ({ id := toString now, text := jsTrim text, completed := false,
           createdAt := now } : Todo).id ≠ u.id) := by
  constructor
  · unfold addTodo
    rw [if_neg h]
  · intro hfresh u hu heq
    apply hfresh
    have : toString now = u.id := heq
    rw [this]
    exact List.mem_map_of_mem Todo.id hu

/-- C3 (witness): adding " b " at clock 7 next to a task with id "1" yields
the trimmed task "b" with id "7" in front, the old task untouched, and the
fresh id differs from the existing one. -/
theorem c3_add_spec_witness :
    jsTrim " b " ≠ "" ∧
    addTodo 7 " b " [⟨"1", "a", false, 1⟩]
      = ⟨"7", "b", false, 7⟩ :: [⟨"1", "a", false, 1⟩] ∧
    ({ id := toString 7, text := jsTrim " b ", completed := false,
       createdAt := 7 } : Todo).id ≠ ("1" : String) := by
  have h := c3_add_spec 7 " b " [⟨"1", "a", false, 1⟩] (by decide)
  refine ⟨by decide, h.1.trans (by decide), ?_⟩
  exact h.2 (by decide) ⟨"1", "a", false, 1⟩ (List.mem_cons_self _ _)

/-- C4: with an active edit session whose draft trims to the empty string,
`saveEdit` changes nothing: every task is untouched, and the session stays
open on the same target id with the same draft (unlike a cancel). -/
theorem c4_saveEdit_blank_draft (s : AppState) (eid : String)
    (hid : s.editingId = some eid) (hdraft : jsTrim s.editText = "") :
    saveEdit s = s ∧ (saveEdit s).editingId = some eid ∧
    (saveEdit s).editText = s.editText := by
  have hnoop : saveEdit s = s := by
    unfold saveEdit
    rw [if_pos hdraft]
  refine ⟨hnoop, ?_, by rw [hnoop]⟩
  rw [hnoop]
  exact hid

/-- A concrete state with an open session and a whitespace-only draft. -/
def blankDraftState : AppState :=
  { todos := [⟨"1", "a", false, 1⟩], filter := .all,
    editingId := some "1", editText := "   " }

/-- C4 (witness): on the concrete blank-draft state, `saveEdit` is the
identity. -/
theorem c4_saveEdit_blank_draft_witness :
    blankDraftState.editingId = some "1" ∧
    jsTrim blankDraftState.editText = "" ∧
    saveEdit blankDraftState = blankDraftState :=
  ⟨rfl, by decide, (c4_saveEdit_blank_draft blankDraftState "1" rfl (by decide)).1⟩

/-- C5: serializing any task collection to the persisted snapshot and
deserializing it back (reviving `createdAt` into its timestamp) yields a
collection equal to the original, reconstructed timestamps included, and no
load error is logged. -/
theorem c5_roundtrip (ts : List Todo) :
    decodeRecords (loadResult (some (.ok (serializeTodos ts)))).records
      = some ts ∧
    (loadResult (some (.ok (serializeTodos ts)))).loggedError = false := by
  rw [loadResult_serialize]
  exact ⟨decodeRecords_map_recordOf ts, rfl⟩

/-- C6: `filteredTodos` returns an order-preserving subsequence of the
collection; under `all` it is the full sequence, under `active` exactly the
members with `completed = false`, and under `completed` exactly those with
`completed = true`. -/
theorem c6_filteredTodos (f : Filter) (ts : List Todo) :
    (filteredTodos f ts).Sublist ts ∧
    filteredTodos Filter.all ts = ts ∧
    (∀ t, t ∈ filteredTodos Filter.active ts ↔ t ∈ ts ∧ t.completed = false) ∧
    (∀ t, t ∈ filteredTodos Filter.completed ts ↔ t ∈ ts ∧ t.completed = true) := by
  refine ⟨List.filter_sublist ts, ?_, ?_, ?_⟩
  · simp [filteredTodos]
  · intro t
    simp [filteredTodos, List.mem_filter]
  · intro t
    simp [filteredTodos, List.mem_filter]

/-- C7: in every state reachable from the empty collection by the
controller's operations — loading the controller's own persisted snapshot
included — every task's text is non-empty and not whitespace-only. -/
theorem c7_committed_texts {sys : Sys} (h : Reachable sys) :
    ∀ t ∈ sys.state.todos, t.text ≠ "" ∧ jsTrim t.text ≠ "" := by
  intro t ht
  have h2 := (invT_reachable h).1 t ht
  refine ⟨?_, h2⟩
  intro he
  apply h2
  rw [he]
  exact jsTrim_empty

/-- C7 (witness): after one add of "a", the reached task's text is neither
empty nor whitespace-only. -/
theorem c7_committed_texts_witness :
    Reachable (applyAdd 1 "a" sysInit) ∧
    ((⟨"1", "a", false, 1⟩ : Todo).text ≠ "" ∧
      jsTrim (⟨"1", "a", false, 1⟩ : Todo).text ≠ "") := by
  have hreach : Reachable (applyAdd 1 "a" sysInit) :=
    Relation.ReflTransGen.head (Step.add 1 "a" sysInit)
      Relation.ReflTransGen.refl
  exact ⟨hreach, c7_committed_texts hreach _ (by decide)⟩

/-- C8: toggling the same id twice restores the collection exactly — toggle
is an involution, so every task's `completed` equals its original value. -/
theorem c8_toggle_involution (i : String) (ts : List Todo) :
    toggleTodo i (toggleTodo i ts) = ts := by
  unfold toggleTodo
  rw [List.map_map]
  have hcong : ∀ t ∈ ts,
      ((fun todo =>
          if todo.id = i then { todo with completed := !todo.completed } else todo)
        ∘ fun todo =>
          if todo.id = i then { todo with completed := !todo.completed } else todo) t
        = t := by
    intro t _
    cases t with
    | mk tid ttext tc tca =>
      by_cases h : tid = i
      · simp [Function.comp, h, Bool.not_not]
      · simp [Function.comp, h]
  rw [List.map_congr_left hcong, List.map_id']

/-- C9: toggling or deleting an id that no task carries leaves the
collection unchanged — a silent no-op, not an error. -/
theorem c9_missing_id_noop (i : String) (ts : List Todo)
    (h : i ∉ ts.map Todo.id) :
    toggleTodo i ts = ts ∧ deleteTodo i ts = ts := by
  constructor
  · unfold toggleTodo
    have hcong : ∀ t ∈ ts,
        (if t.id = i then { t with completed := !t.completed } else t) = t := by
      intro t ht
      rw [if_neg]
      intro he
      exact h (he ▸ List.mem_map_of_mem Todo.id ht)
    rw [List.map_congr_left hcong, List.map_id']
  · unfold deleteTodo
    apply List.filter_eq_self.mpr
    intro t ht
    have : t.id ≠ i := by
      intro he
      exact h (he ▸ List.mem_map_of_mem Todo.id ht)
    simpa [bne_iff_ne] using this

/-- C9 (witness): id "9" is absent from the one-task collection, and both
operations leave it unchanged. -/
theorem c9_missing_id_noop_witness :
    ("9" : String) ∉ [Todo.mk "1" "a" false 1].map Todo.id ∧
    toggleTodo "9" [Todo.mk "1" "a" false 1] = [Todo.mk "1" "a" false 1] ∧
    deleteTodo "9" [Todo.mk "1" "a" false 1] = [Todo.mk "1" "a" false 1] := by
  have h : ("9" : String) ∉ [Todo.mk "1" "a" false 1].map Todo.id := by decide
  exact ⟨h, (c9_missing_id_noop "9" _ h).1, (c9_missing_id_noop "9" _ h).2⟩

/-- C10: adding text that trims to the empty string (such as "" or "   ")
leaves the collection unchanged. -/
theorem c10_add_blank_noop (now : Nat) (text : String) (ts : List Todo)
    (h : jsTrim text = "") : addTodo now text ts = ts := by
  unfold addTodo
  rw [if_pos h]

/-- C10 (witness): adding "   " to a one-task collection changes nothing. -/
theorem c10_add_blank_noop_witness :
    jsTrim "   " = "" ∧
    addTodo 3 "   " [⟨"1", "a", false, 1⟩] = [⟨"1", "a", false, 1⟩] :=
  ⟨by decide, c10_add_blank_noop 3 "   " _ (by decide)⟩

end TodoApp

